import Mathlib

/-!
# Verification of the Biodesign-Metadata-Exchange versioning core

Shallow embedding of the metadata-versioning engine of the
Lattice-Automation/Biodesign-Metadata-Exchange repository
(`src/biodesign-library/python/BioDesignMetadataLibrary.py`,
`src/provider-backend/LatticeSynthProviderTool.py`,
`src/biodesign-tool/operations/CreateOperation.py`) together with proofs of the
specification's claims about it.

Modelling conventions:
* A Python `str` of design content is modelled as a `List Nat` of Unicode code
  points; helper `pyStr` converts a Lean string literal for concrete inputs.
* Python byte strings are `List Nat` with every element `< 256`.
* `hashlib.sha256` is implemented concretely from FIPS 180-4 (the repository
  delegates hashing to the standard library; the algorithm is fixed by it).
* Nondeterministic inputs of the Python code (`uuid.uuid4()`,
  `datetime.datetime.now()`, `os.urandom(16)`) become explicit parameters.
* The filesystem of metadata JSON files is an association list from path to
  record; a raised Python exception is an `Except.error` carrying a `PyError`.
-/

set_option maxRecDepth 1000000

/-- Python exception classes that the modelled code can raise.  `valueError`
models `ValueError` (Python's validation failure), `fileNotFoundError` models
the `FileNotFoundError` (an `OSError` subclass, not a `ValueError`) raised by
`open(path, "r")` on a missing file, `paddingError` the `ValueError` raised by
the PKCS7 unpadder of the `cryptography` package on invalid padding, and
`decodeError` the `binascii.Error` raised by `base64.b64decode` on malformed
input. -/
inductive PyError where
  | valueError (msg : String)
  | fileNotFoundError (path : String)
  | paddingError
  | decodeError
  deriving Repr, DecidableEq

/-- Whether an error is of Python class `ValueError` (the class the spec calls
"ValidationError-class").  `FileNotFoundError` is an `OSError`, not a
`ValueError`; the padding error of the `cryptography` package is a
`ValueError`. -/
def PyError.isValueError : PyError → Bool
  | .valueError _ => true
  | .fileNotFoundError _ => false
  | .paddingError => true
  | .decodeError => false

/-- A Lean string literal as a list of Unicode code points (the model of a
Python `str`). -/
def pyStr (s : String) : List Nat :=
  s.data.map Char.toNat

/-- One code point of Python's `str.lower()` (`input.lower()` in
`calculate_checksum`), on the ASCII range: `A`–`Z` maps to `a`–`z`, everything
else is unchanged.  Design content handled by the repository is ASCII sequence
data. -/
def pyLowerChar (c : Nat) : Nat :=
  if 65 ≤ c ∧ c ≤ 90 then c + 32 else c

/-- Python's `str.lower()` on a whole string. -/
def pyLower (s : List Nat) : List Nat :=
  s.map pyLowerChar

/-- UTF-8 encoding of one code point (Python's `str.encode()` with the default
encoding). -/
def utf8EncodeChar (c : Nat) : List Nat :=
  if c < 128 then [c]
  else if c < 2048 then [192 + c / 64, 128 + c % 64]
  else if c < 65536 then [224 + c / 4096, 128 + c / 64 % 64, 128 + c % 64]
  else [240 + c / 262144, 128 + c / 4096 % 64, 128 + c / 64 % 64, 128 + c % 64]

/-- UTF-8 encoding of a string of code points. -/
def utf8Encode (s : List Nat) : List Nat :=
  s.flatMap utf8EncodeChar

/-! ## SHA-256 (FIPS 180-4), as used by `hashlib.sha256` -/

/-- Addition of 32-bit words modulo `2 ^ 32`. -/
def add32 (a b : Nat) : Nat :=
  (a + b) % 4294967296

/-- Right rotation of a 32-bit word by `n` bits. -/
def rotr32 (n x : Nat) : Nat :=
  x / 2 ^ n + x % 2 ^ n * 2 ^ (32 - n)

/-- Logical right shift of a 32-bit word by `n` bits. -/
def shr32 (n x : Nat) : Nat :=
  x / 2 ^ n

/-- Bitwise complement of a 32-bit word. -/
def not32 (x : Nat) : Nat :=
  Nat.xor x 4294967295

/-- SHA-256 `Ch` function. -/
def shaCh (x y z : Nat) : Nat :=
  Nat.xor (Nat.land x y) (Nat.land (not32 x) z)

/-- SHA-256 `Maj` function. -/
def shaMaj (x y z : Nat) : Nat :=
  Nat.xor (Nat.xor (Nat.land x y) (Nat.land x z)) (Nat.land y z)

/-- SHA-256 `Σ₀`. -/
def shaS0 (x : Nat) : Nat :=
  Nat.xor (Nat.xor (rotr32 2 x) (rotr32 13 x)) (rotr32 22 x)

/-- SHA-256 `Σ₁`. -/
def shaS1 (x : Nat) : Nat :=
  Nat.xor (Nat.xor (rotr32 6 x) (rotr32 11 x)) (rotr32 25 x)

/-- SHA-256 `σ₀`. -/
def shas0 (x : Nat) : Nat :=
  Nat.xor (Nat.xor (rotr32 7 x) (rotr32 18 x)) (shr32 3 x)

/-- SHA-256 `σ₁`. -/
def shas1 (x : Nat) : Nat :=
  Nat.xor (Nat.xor (rotr32 17 x) (rotr32 19 x)) (shr32 10 x)

/-- The 64 SHA-256 round constants. -/
def shaK : List Nat :=
  [1116352408, 1899447441, 3049323471, 3921009573, 961987163,
   1508970993, 2453635748, 2870763221, 3624381080, 310598401,
   607225278, 1426881987, 1925078388, 2162078206, 2614888103,
   3248222580, 3835390401, 4022224774, 264347078, 604807628,
   770255983, 1249150122, 1555081692, 1996064986, 2554220882,
   2821834349, 2952996808, 3210313671, 3336571891, 3584528711,
   113926993, 338241895, 666307205, 773529912, 1294757372,
   1396182291, 1695183700, 1986661051, 2177026350, 2456956037,
   2730485921, 2820302411, 3259730800, 3345764771, 3516065817,
   3600352804, 4094571909, 275423344, 430227734, 506948616,
   659060556, 883997877, 958139571, 1322822218, 1537002063,
   1747873779, 1955562222, 2024104815, 2227730452, 2361852424,
   2428436474, 2756734187, 3204031479, 3329325298]

/-- The initial SHA-256 hash value. -/
def shaH0 : List Nat :=
  [1779033703, 3144134277, 1013904242, 2773480762,
   1359893119, 2600822924, 528734635, 1541459225]

/-- Fuel-driven worker for `chunksSucc`; structural recursion on the fuel so
that the kernel can evaluate it. -/
def chunksAux (m : Nat) : Nat → List Nat → List (List Nat)
  | 0, _ => []
  | _, [] => []
  | fuel + 1, x :: xs =>
      (x :: xs).take (m + 1) :: chunksAux m fuel ((x :: xs).drop (m + 1))

/-- Split a list into chunks of `m + 1` elements (the last chunk may be
shorter). -/
def chunksSucc (m : Nat) (l : List Nat) : List (List Nat) :=
  chunksAux m l.length l

/-- Big-endian bytes of a number, `len` bytes wide. -/
def toBytesBE : Nat → Nat → List Nat
  | 0, _ => []
  | len + 1, n => toBytesBE len (n / 256) ++ [n % 256]

/-- SHA-256 message padding: append `0x80`, zeros to 56 mod 64, then the
bit length as 8 big-endian bytes. -/
def shaPad (msg : List Nat) : List Nat :=
  msg ++ [128] ++ List.replicate ((120 - (msg.length + 1) % 64) % 64) 0 ++
    toBytesBE 8 (8 * msg.length)

/-- Assemble big-endian 32-bit words from bytes. -/
def bytesToWords (bytes : List Nat) : List Nat :=
  (chunksSucc 3 bytes).map fun b =>
    b.getD 0 0 * 16777216 + b.getD 1 0 * 65536 + b.getD 2 0 * 256 + b.getD 3 0

/-- Extend the 16 block words to the 64-entry message schedule. -/
def shaExtend (w : List Nat) : Nat → List Nat
  | 0 => w
  | n + 1 =>
      let t := w.length
      let next := (shas1 (w.getD (t - 2) 0) + w.getD (t - 7) 0 +
        shas0 (w.getD (t - 15) 0) + w.getD (t - 16) 0) % 4294967296
      shaExtend (w ++ [next]) n

/-- One SHA-256 compression round on the 8-word working state. -/
def shaRound (st : List Nat) (kw : Nat × Nat) : List Nat :=
  let a := st.getD 0 0
  let b := st.getD 1 0
  let c := st.getD 2 0
  let d := st.getD 3 0
  let e := st.getD 4 0
  let f := st.getD 5 0
  let g := st.getD 6 0
  let h := st.getD 7 0
  let t1 := (h + shaS1 e + shaCh e f g + kw.1 + kw.2) % 4294967296
  let t2 := (shaS0 a + shaMaj a b c) % 4294967296
  [(t1 + t2) % 4294967296, a, b, c, (d + t1) % 4294967296, e, f, g]

/-- Process one 64-byte block, updating the 8-word hash state. -/
def shaBlock (h : List Nat) (block : List Nat) : List Nat :=
  let w := shaExtend (bytesToWords block) 48
  let st := (shaK.zip w).foldl shaRound h
  (h.zip st).map fun p => add32 p.1 p.2

/-- SHA-256 digest of a byte string, as the 8-word hash state. -/
def sha256Words (msg : List Nat) : List Nat :=
  (chunksSucc 63 (shaPad msg)).foldl shaBlock shaH0

/-- Lowercase hexadecimal digit. -/
def hexDigit (n : Nat) : Char :=
  "0123456789abcdef".data.getD n '0'

/-- Fixed-width lowercase hexadecimal rendering of a number. -/
def toHexChars : Nat → Nat → List Char
  | 0, _ => []
  | len + 1, n => toHexChars len (n / 16) ++ [hexDigit (n % 16)]

/-- Hex digest string of a SHA-256 hash (Python's `hexdigest()`). -/
def sha256Hex (msg : List Nat) : String :=
  String.mk ((sha256Words msg).flatMap (toHexChars 8))

/-- `BioDesignMetadataLibrary.calculate_checksum`: lowercase the input string,
UTF-8 encode it, and return the hex SHA-256 digest. -/
def calculate_checksum (input : List Nat) : String :=
  sha256Hex (utf8Encode (pyLower input))

-- Validation of the SHA-256 embedding against published test vectors.
example : sha256Hex (utf8Encode (pyStr "abc")) =
    "ba7816bf8f01cfea414140de5dae2223b00361a396177a9cb410ff61f20015ad" := by
  decide

example : sha256Hex [] =
    "e3b0c44298fc1c149afbf4c8996fb92427ae41e4649b934ca495991b7852b855" := by
  decide

-- The concrete scenario of spec section 8.7: the checksum of design "atgc".
example : calculate_checksum (pyStr "ATGC") =
    "7d8b3f80a85dc5bb35a3ec3141b4c0eba926264aa03e66db0d6557868ad2875a" := by
  decide

/-! ## DiffPatchCodec

The repository delegates diffing to the external `diff_match_patch` package
(not part of this repository).  Modelled from the spec: a patch produced by
`compute_difference(a, b)` is a text-serialized reversible edit transforming
`b` into `a`; applying it to the exact text it was made against replaces the
changed region and reports a per-patch success flag.  The model represents
serialized patch text by its parse: a list of `DmpPatch` regions (the empty
patch text is the empty list), and implements the codec concretely by
trimming the common head and tail of the two strings. -/

/-- One parsed patch region: at offset `start` of the base text, delete the
expected text `del` and insert `ins`. -/
structure DmpPatch where
  start : Nat
  del : List Nat
  ins : List Nat
  deriving Repr, DecidableEq

/-- Length of the longest common head of two lists. -/
def commonLeadLen : List Nat → List Nat → Nat
  | a :: as, b :: bs => if a = b then commonLeadLen as bs + 1 else 0
  | _, _ => 0

/-- Length of the longest common tail of two lists. -/
def commonTrailLen (a b : List Nat) : Nat :=
  commonLeadLen a.reverse b.reverse

/-- `BioDesignMetadataLibrary.compute_difference`: the patch transforming
`new_string` back into `original_string` (built `new → old`, the direction
required by revision reconstruction).  Two equal strings give the empty
patch. -/
def compute_difference (original_string new_string : List Nat) : List DmpPatch :=
  if original_string = new_string then []
  else
    let p := commonLeadLen new_string original_string
    let midN := new_string.drop p
    let midO := original_string.drop p
    let s := commonTrailLen midN midO
    [{ start := p, del := midN.take (midN.length - s), ins := midO.take (midO.length - s) }]

/-- `diff_match_patch.patch_apply`: apply each patch where its expected text
matches, collecting a success flag per patch; a non-matching patch leaves the
text unchanged and records `false`.  The flags are returned alongside the
text (`dmp.patch_apply(patches, last_design)` returns the pair
`(new_text, results)`). -/
def patch_apply (patches : List DmpPatch) (text : List Nat) : List Nat × List Bool :=
  patches.foldl
    (fun acc pa =>
      if ((acc.1.drop pa.start).take pa.del.length = pa.del ∧
          pa.start ≤ acc.1.length : Prop) then
        (acc.1.take pa.start ++ pa.ins ++ acc.1.drop (pa.start + pa.del.length),
         acc.2 ++ [true])
      else (acc.1, acc.2 ++ [false]))
    (text, [])

/-! ## Data model and MetadataStore -/

/-- `BioDesignOperation` (one changelog entry), as in the Python dataclass.
`operationDetails` is a free-form mapping, modelled as an association list;
`change` is the (parsed) patch text. -/
structure BioDesignOperation where
  operationCode : String
  operationDetails : List (String × String)
  change : List DmpPatch
  timestamp : String
  tool : String
  deriving Repr, DecidableEq

/-- `BioDesignMetadata`, as in the Python dataclass.  The design content
checksum is the hex digest string. -/
structure BioDesignMetadata where
  id : String
  parentMetadataId : Option String
  designName : Option String
  designChecksum : String
  author : String
  description : String
  lastUpdated : String
  changelog : List BioDesignOperation
  deriving Repr, DecidableEq

/-- The library directory of metadata JSON files: an association list from
file path to the stored record; a fresh write shadows any earlier entry for
the same path. -/
def MetadataFiles : Type :=
  List (String × BioDesignMetadata)

instance : DecidableEq MetadataFiles :=
  inferInstanceAs (DecidableEq (List (String × BioDesignMetadata)))

/-- Read the record at `path` (the first, i.e. most recent, write wins). -/
def readRecord (store : MetadataFiles) (path : String) : Option BioDesignMetadata :=
  match store with
  | [] => none
  | (p, m) :: rest => if p = path then some m else readRecord rest path

/-- Write (create or overwrite) the record at `path`. -/
def writeRecord (store : MetadataFiles) (path : String) (m : BioDesignMetadata) :
    MetadataFiles :=
  (path, m) :: store

/-- `BioDesignMetadataLibrary.create_metadata`.  The fresh `uuid.uuid4()` and
the `datetime.datetime.now()` timestamp are explicit parameters `newId` and
`now`.  The record is written to `library/metadata_<design_name>.json`
(overwriting any existing file, as Python's `open(..., "w")` does) and also
returned. -/
def create_metadata (store : MetadataFiles) (newId now : String)
    (parent_metadata_id : Option String) (design_name author description : String)
    (design : List Nat) : BioDesignMetadata × MetadataFiles :=
  let metadata : BioDesignMetadata :=
    { id := newId
      parentMetadataId := parent_metadata_id
      designName := some design_name
      designChecksum := calculate_checksum design
      author := author
      description := description
      lastUpdated := now
      changelog := [] }
  (metadata,
   writeRecord store ("library/metadata_" ++ design_name ++ ".json") metadata)

/-- `BioDesignMetadataLibrary.update_metadata_with_operation`.  Reads the
record at `metadata_path` (a missing file makes `open(metadata_path, "r")`
raise `FileNotFoundError`), refreshes `lastUpdated` and `designChecksum`,
appends one `BioDesignOperation` built from the arguments with
`tool = "BioDesign tool"` and `timestamp = lastUpdated`, and writes the whole
record back to the same path. -/
def update_metadata_with_operation (store : MetadataFiles) (metadata_path : String)
    (design : List Nat) (operation_code : String)
    (operation_details : List (String × String)) (change : List DmpPatch)
    (now : String) : Except PyError (BioDesignMetadata × MetadataFiles) :=
  match readRecord store metadata_path with
  | none => .error (.fileNotFoundError metadata_path)
  | some metadata =>
      let operation : BioDesignOperation :=
        { operationCode := operation_code
          operationDetails := operation_details
          change := change
          timestamp := now
          tool := "BioDesign tool" }
      let updated : BioDesignMetadata :=
        { metadata with
            lastUpdated := now
            designChecksum := calculate_checksum design
            changelog := metadata.changelog ++ [operation] }
      .ok (updated, writeRecord store metadata_path updated)

/-! ## ChangelogEngine -/

/-- One reconstructed revision, as the dict
`{"revision": r, "design": d, **asdict(op)}` built by `compute_revisions`. -/
structure Revision where
  revision : Nat
  design : List Nat
  operationCode : String
  operationDetails : List (String × String)
  change : List DmpPatch
  timestamp : String
  tool : String
  deriving Repr, DecidableEq

/-- The loop body of `compute_revisions`: walk the (already reversed)
changelog, emitting a revision per entry before undoing that entry's patch;
the success flags of `patch_apply` are discarded. -/
def computeRevisionsAux (last_design : List Nat) (current_revision : Nat) :
    List BioDesignOperation → List Revision
  | [] => []
  | op :: rest =>
      { revision := current_revision
        design := last_design
        operationCode := op.operationCode
        operationDetails := op.operationDetails
        change := op.change
        timestamp := op.timestamp
        tool := op.tool } ::
      computeRevisionsAux
        (if op.change = [] then last_design else (patch_apply op.change last_design).1)
        (current_revision - 1) rest

/-- `BioDesignMetadataLibrary.compute_revisions`: start from the most recent
content with `current_revision = len(changelog)` and walk the changelog in
reverse. -/
def compute_revisions (last_design : List Nat)
    (changelog : List BioDesignOperation) : List Revision :=
  computeRevisionsAux last_design changelog.length changelog.reverse

/-! ## Provider tool and server -/

/-- `LatticeSynthesisProviderTool.design_and_metadata_match`, after the
external steps (file reads, `decrypt_string`, JSON parse, and GenBank/PDB
content extraction by Biopython) have produced the decrypted metadata record
and the design content string: the comparison
`design_checksum_in_metadata == received_design_checksum`. -/
def design_and_metadata_match (metadata : BioDesignMetadata)
    (design_str : List Nat) : Bool :=
  metadata.designChecksum == calculate_checksum design_str

/-- A Flask JSON response of `provider-server.py`, reduced to the `error`
flag, message, and HTTP status code. -/
structure OrderResponse where
  error : Bool
  message : String
  status : Nat
  deriving Repr, DecidableEq

/-- The outcome branch of `provider-server.py`'s `place_order` once both file
paths are present: a checksum mismatch is reported as a normal negative JSON
result (`error: true`, HTTP 200), not an exception. -/
def place_order (filesMatch : Bool) : OrderResponse :=
  if filesMatch then
    { error := false, message := "Order placed successfully.", status := 200 }
  else
    { error := true
      message := "Design file and metadata file do not match. Please upload matching files."
      status := 200 }

/-! ## CreateOperation (biodesign-tool) -/

/-- The argument state of `CreateOperation` after validation. -/
structure CreateOperationState where
  file_name : String
  sequence : String
  source : String
  metadata_parent_id : String
  deriving Repr, DecidableEq

/-- `CreateOperation.validate_and_set_args`: missing `file_name` or
`sequence` (Python falsiness: absent or empty) raises `ValueError`; an
existing `library/<file_name>.gb` file raises `ValueError`; otherwise the
arguments are recorded with their defaults.  `existing_files` models the set
of paths for which `os.path.exists` is true. -/
def validate_and_set_args (existing_files : List String)
    (file_name sequence source metadata_parent_id : Option String) :
    Except PyError CreateOperationState :=
  if file_name.getD "" = "" ∨ sequence.getD "" = "" then
    .error (.valueError "CREATE operation requires a file_name and a sequence argument")
  else if ("library/" ++ file_name.getD "" ++ ".gb") ∈ existing_files then
    .error (.valueError
      ("A file with the name " ++ file_name.getD "" ++ ".gb already exists"))
  else
    .ok { file_name := file_name.getD ""
          sequence := sequence.getD ""
          source := source.getD "command_line"
          metadata_parent_id := metadata_parent_id.getD "" }

/-! ## CryptoTransport

`encrypt_string` / `decrypt_string` delegate the AES block transformation to
the external `cryptography` package.  Modelled from the spec: AES under the
pre-shared key is a block permutation on 16-byte blocks; it enters the model
as an explicit pair of functions `E` (encryption direction) and `D`
(decryption direction).  PKCS7 padding, CBC chaining, the IV prefix, and the
base64 token encoding — the structure the repository's code is responsible
for — are implemented concretely. -/

/-- PKCS7 padding to 16-byte blocks (`padding.PKCS7(128).padder()`): append
`k` copies of the byte `k`, where `k = 16 - len % 16` (between 1 and 16). -/
def pkcs7Pad (msg : List Nat) : List Nat :=
  let k := 16 - msg.length % 16
  msg ++ List.replicate k k

/-- PKCS7 unpadding (`padding.PKCS7(...).unpadder()`): read the final byte
`k`, require `1 ≤ k ≤ 16`, at least `k` bytes, and that the last `k` bytes
all equal `k`; strip them.  Invalid padding raises `ValueError`. -/
def pkcs7Unpad (data : List Nat) : Except PyError (List Nat) :=
  match data.getLast? with
  | none => .error .paddingError
  | some k =>
      if 1 ≤ k ∧ k ≤ 16 ∧ k ≤ data.length ∧
          (data.drop (data.length - k)).all (· == k) then
        .ok (data.take (data.length - k))
      else .error .paddingError

/-- Byte-wise XOR of two equal-length byte strings. -/
def xorBytes (a b : List Nat) : List Nat :=
  List.zipWith Nat.xor a b

/-- CBC encryption over a list of plaintext blocks: each block is XORed with
the previous ciphertext block (initially the IV) before the block cipher. -/
def cbcEncBlocks (E : List Nat → List Nat) : List Nat → List (List Nat) → List (List Nat)
  | _, [] => []
  | prev, b :: bs =>
      let c := E (xorBytes prev b)
      c :: cbcEncBlocks E c bs

/-- CBC decryption over a list of ciphertext blocks. -/
def cbcDecBlocks (D : List Nat → List Nat) : List Nat → List (List Nat) → List (List Nat)
  | _, [] => []
  | prev, c :: cs => xorBytes prev (D c) :: cbcDecBlocks D c cs

/-- The base64 alphabet of `base64.b64encode`. -/
def b64Alphabet : List Char :=
  "ABCDEFGHIJKLMNOPQRSTUVWXYZabcdefghijklmnopqrstuvwxyz0123456789+/".data

/-- The base64 character of a 6-bit value. -/
def b64Char (n : Nat) : Char :=
  b64Alphabet.getD n 'A'

/-- The 6-bit value of a base64 character, if it is in the alphabet. -/
def b64CharIndex (c : Char) : Option Nat :=
  b64Alphabet.findIdx? (· == c)

/-- Standard base64 encoding of a byte string, three bytes at a time with
`=` padding. -/
def b64encodeGroups : List Nat → List Char
  | [] => []
  | [a] => [b64Char (a / 4), b64Char (a % 4 * 16), '=', '=']
  | [a, b] => [b64Char (a / 4), b64Char (a % 4 * 16 + b / 16), b64Char (b % 16 * 4), '=']
  | a :: b :: c :: rest =>
      b64Char (a / 4) :: b64Char (a % 4 * 16 + b / 16) ::
      b64Char (b % 16 * 4 + c / 64) :: b64Char (c % 64) :: b64encodeGroups rest

/-- Standard base64 decoding; a character outside the alphabet or a length
that is not a multiple of four raises `binascii.Error`. -/
def b64decodeGroups : List Char → Except PyError (List Nat)
  | [] => .ok []
  | c1 :: c2 :: c3 :: c4 :: rest =>
      match b64CharIndex c1, b64CharIndex c2 with
      | some s1, some s2 =>
          if c3 = '=' ∧ c4 = '=' ∧ rest = [] then
            .ok [s1 * 4 + s2 / 16]
          else
            match b64CharIndex c3 with
            | some s3 =>
                if c4 = '=' ∧ rest = [] then
                  .ok [s1 * 4 + s2 / 16, s2 % 16 * 16 + s3 / 4]
                else
                  match b64CharIndex c4, b64decodeGroups rest with
                  | some s4, .ok tail =>
                      .ok ((s1 * 4 + s2 / 16) :: (s2 % 16 * 16 + s3 / 4) ::
                           (s3 % 4 * 64 + s4) :: tail)
                  | _, _ => .error .decodeError
            | none => .error .decodeError
      | _, _ => .error .decodeError
  | _ => .error .decodeError

/-- `base64.b64encode(...).decode()`: the token string of a byte string. -/
def b64encode (data : List Nat) : String :=
  String.mk (b64encodeGroups data)

/-- `base64.b64decode` on a token string. -/
def b64decode (s : String) : Except PyError (List Nat) :=
  b64decodeGroups s.data

instance {ε α : Type} [DecidableEq ε] [DecidableEq α] : DecidableEq (Except ε α)
  | .ok a, .ok b =>
      if h : a = b then .isTrue (by rw [h]) else .isFalse (by simp [h])
  | .error a, .error b =>
      if h : a = b then .isTrue (by rw [h]) else .isFalse (by simp [h])
  | .ok _, .error _ => .isFalse (by simp)
  | .error _, .ok _ => .isFalse (by simp)

/-- `BioDesignMetadataLibrary.encrypt_string`.  `E` is AES encryption of one
16-byte block under the configured key (external library); `encryption_key`
is the value of the `ENCRYPTION_KEY` environment variable (empty models both
unset and empty, Python falsiness); `iv` is the fresh `os.urandom(16)` value;
`string_bytes` is the UTF-8 encoding of the plaintext string.  The result is
`base64(iv || CBC-encrypt(PKCS7-pad(string_bytes)))`. -/
def encrypt_string (E : List Nat → List Nat) (encryption_key : String)
    (iv string_bytes : List Nat) : Except PyError String :=
  if encryption_key = "" then
    .error (.valueError "ENCRYPTION_KEY environment variable is not set")
  else
    .ok (b64encode (iv ++ (cbcEncBlocks E iv (chunksSucc 15 (pkcs7Pad string_bytes))).flatten))

/-- `BioDesignMetadataLibrary.decrypt_string`.  `D` is AES decryption of one
16-byte block under the configured key.  The token is base64-decoded, split
into the 16-byte IV and the ciphertext, CBC-decrypted, and PKCS7-unpadded;
the result is the plaintext's UTF-8 bytes (the final `.decode('utf-8')` of
the source is the inverse of the `.encode()` in `encrypt_string` and is
modelled away).  A ciphertext that is not block-aligned makes the cipher
`finalize()` raise `ValueError`. -/
def decrypt_string (D : List Nat → List Nat) (encryption_key : String)
    (token : String) : Except PyError (List Nat) :=
  if encryption_key = "" then
    .error (.valueError "ENCRYPTION_KEY environment variable is not set")
  else
    match b64decode token with
    | .error e => .error e
    | .ok encrypted_data_with_iv =>
        let iv := encrypted_data_with_iv.take 16
        let encrypted_data := encrypted_data_with_iv.drop 16
        if encrypted_data.length % 16 = 0 then
          pkcs7Unpad ((cbcDecBlocks D iv (chunksSucc 15 encrypted_data)).flatten)
        else .error (.valueError "ciphertext is not block-aligned")

/-! ## Edit chains

A record built by `create_metadata` followed by sequential
`update_metadata_with_operation` calls, where each stored `change` is
`compute_difference(previous_content, new_content)` as performed by the
biodesign-tool operations.  `ChainStep` carries the data of one update. -/

/-- The data of one update in an edit chain: the operation descriptor fields
and the content the design has after this step. -/
structure ChainStep where
  code : String
  details : List (String × String)
  ts : String
  newContent : List Nat
  deriving Repr, DecidableEq

/-- The changelog entry that `update_metadata_with_operation` records for one
step, with `change` computed in the `new → old` direction from the previous
content. -/
def chainOp (prev : List Nat) (s : ChainStep) : BioDesignOperation :=
  { operationCode := s.code
    operationDetails := s.details
    change := compute_difference prev s.newContent
    timestamp := s.ts
    tool := "BioDesign tool" }

/-- Run a chain of `update_metadata_with_operation` calls against the record
at `path`, each call passing the new content together with
`compute_difference(previous_content, new_content)` as the stored change, as
the biodesign-tool operations do. -/
def runChain (store : MetadataFiles) (path : String) :
    List Nat → List ChainStep → Except PyError MetadataFiles
  | _, [] => .ok store
  | prev, s :: rest =>
      match update_metadata_with_operation store path s.newContent s.code
        s.details (compute_difference prev s.newContent) s.ts with
      | .error e => .error e
      | .ok (_, store2) => runChain store2 path s.newContent rest

/-- The changelog of an edit chain starting from content `d0`. -/
def chainChangelog : List Nat → List ChainStep → List BioDesignOperation
  | _, [] => []
  | d0, s :: rest => chainOp d0 s :: chainChangelog s.newContent rest

/-- The final content of an edit chain starting from content `d0`. -/
def chainFinal : List Nat → List ChainStep → List Nat
  | d0, [] => d0
  | _, s :: rest => chainFinal s.newContent rest

/-- The revision that reconstruction must emit for one chain step: the step's
own revision number, the content the design had right after that step, and
the fields of the step's changelog entry. -/
def expectedRevision (num : Nat) (prev : List Nat) (s : ChainStep) : Revision :=
  { revision := num
    design := s.newContent
    operationCode := s.code
    operationDetails := s.details
    change := compute_difference prev s.newContent
    timestamp := s.ts
    tool := "BioDesign tool" }

/-- The full expected reconstruction of a chain whose first step gets
revision number `base + 1`: newest first, numbers counting down to
`base + 1`. -/
def expectedRevisions : Nat → List Nat → List ChainStep → List Revision
  | _, _, [] => []
  | base, d0, s :: rest =>
      expectedRevisions (base + 1) s.newContent rest ++ [expectedRevision (base + 1) d0 s]

/-! ## Concrete sample data for witnesses -/

/-- A concrete metadata record for concrete instantiations. -/
def demoMeta : BioDesignMetadata :=
  { id := "i"
    parentMetadataId := none
    designName := some "n"
    designChecksum := "c"
    author := "a"
    description := "d"
    lastUpdated := "t"
    changelog := [] }

/-- A concrete record with checksum field "deadbeef". -/
def demoMetaBad : BioDesignMetadata :=
  { demoMeta with designChecksum := "deadbeef" }

/-- A one-record store holding `demoMeta` at path "p". -/
def demoStore : MetadataFiles :=
  [("p", demoMeta)]

/-! ## Lemmas: lowercasing and the checksum -/

/-- Lowercasing one code point is idempotent. -/
theorem pyLowerChar_pyLowerChar (c : Nat) :
    pyLowerChar (pyLowerChar c) = pyLowerChar c := by
  unfold pyLowerChar
  by_cases h : 65 ≤ c ∧ c ≤ 90
  · rw [if_pos h, if_neg (by omega)]
  · simp only [if_neg h]

/-- Lowercasing a string is idempotent. -/
theorem pyLower_pyLower (s : List Nat) : pyLower (pyLower s) = pyLower s := by
  induction s with
  | nil => rfl
  | cons c cs ih =>
      simp only [pyLower, List.map_cons] at ih ⊢
      rw [pyLowerChar_pyLowerChar]
      exact congrArg _ ih

/-- C9. Checksum definition and case-insensitivity: `calculate_checksum`
is the hex SHA-256 digest of the lowercased (then UTF-8 encoded) content,
and in particular agrees on a string and its lowercase form. -/
theorem checksum_spec_and_case_insensitive (C : List Nat) :
    calculate_checksum C = sha256Hex (utf8Encode (pyLower C)) ∧
    calculate_checksum C = calculate_checksum (pyLower C) := by
  constructor
  · rfl
  · unfold calculate_checksum
    rw [pyLower_pyLower]

/-! ## Lemmas: the diff/patch codec -/

/-- The longest-common-head length is bounded by the left list's length. -/
theorem commonLeadLen_le_left (a : List Nat) : ∀ b, commonLeadLen a b ≤ a.length := by
  induction a with
  | nil => intro b; cases b <;> simp [commonLeadLen]
  | cons x xs ih =>
      intro b
      cases b with
      | nil => simp [commonLeadLen]
      | cons y ys =>
          by_cases h : x = y
          · simp only [commonLeadLen, if_pos h, List.length_cons]
            have := ih ys
            omega
          · simp [commonLeadLen, h]

/-- The longest-common-head length is bounded by the right list's length. -/
theorem commonLeadLen_le_right (a : List Nat) : ∀ b, commonLeadLen a b ≤ b.length := by
  induction a with
  | nil => intro b; cases b <;> simp [commonLeadLen]
  | cons x xs ih =>
      intro b
      cases b with
      | nil => simp [commonLeadLen]
      | cons y ys =>
          by_cases h : x = y
          · simp only [commonLeadLen, if_pos h, List.length_cons]
            have := ih ys
            omega
          · simp [commonLeadLen, h]

/-- Both lists start with the same common head. -/
theorem take_commonLeadLen (a : List Nat) :
    ∀ b, a.take (commonLeadLen a b) = b.take (commonLeadLen a b) := by
  induction a with
  | nil => intro b; cases b <;> simp [commonLeadLen]
  | cons x xs ih =>
      intro b
      cases b with
      | nil => simp [commonLeadLen]
      | cons y ys =>
          by_cases h : x = y
          · simp only [commonLeadLen, if_pos h, List.take_succ_cons]
            rw [h, ih ys]
          · simp [commonLeadLen, h]

/-- Both lists end with the same common tail. -/
theorem drop_commonTrailLen (a b : List Nat) :
    a.drop (a.length - commonTrailLen a b) = b.drop (b.length - commonTrailLen a b) := by
  have h := take_commonLeadLen a.reverse b.reverse
  rw [List.take_reverse, List.take_reverse] at h
  unfold commonTrailLen
  exact List.reverse_injective h

/-- Applying one patch whose expected deleted text is found in place replaces
that region and reports success. -/
theorem patch_apply_single (B : List Nat) (p : Nat) (del ins : List Nat)
    (hcond : (B.drop p).take del.length = del) (hp : p ≤ B.length) :
    patch_apply [⟨p, del, ins⟩] B =
      (B.take p ++ ins ++ B.drop (p + del.length), [true]) := by
  unfold patch_apply
  simp only [List.foldl_cons, List.foldl_nil]
  rw [if_pos ⟨hcond, hp⟩]
  simp

/-- Core of the round-trip: applying the head/tail-trimmed patch from `B`
to `A` over the base text `B` reconstructs `A`. -/
theorem diff_apply_core (A B : List Nat) (p s : Nat)
    (hpB : p ≤ B.length)
    (hsN : s ≤ (B.drop p).length)
    (hhead : B.take p = A.take p)
    (htail : (B.drop p).drop ((B.drop p).length - s) =
      (A.drop p).drop ((A.drop p).length - s)) :
    patch_apply
      [⟨p, (B.drop p).take ((B.drop p).length - s),
          (A.drop p).take ((A.drop p).length - s)⟩] B = (A, [true]) := by
  have hdel_len : ((B.drop p).take ((B.drop p).length - s)).length =
      (B.drop p).length - s := by
    rw [List.length_take]
    omega
  rw [patch_apply_single B p _ _ (by rw [hdel_len]) hpB]
  congr 1
  rw [hdel_len, ← List.drop_drop, htail, hhead]
  conv_rhs => rw [← List.take_append_drop p A]
  rw [List.append_assoc]
  congr 1
  exact List.take_append_drop _ (A.drop p)

/-- Helper: the patch produced by `compute_difference(A, B)`, applied to
`B`, yields exactly `A`, with every produced patch applying cleanly. -/
theorem patch_apply_compute_difference (A B : List Nat) :
    patch_apply (compute_difference A B) B =
      (A, (compute_difference A B).map fun _ => true) := by
  by_cases heq : A = B
  · subst heq
    simp [compute_difference, patch_apply]
  · unfold compute_difference
    rw [if_neg heq]
    have hsN := commonLeadLen_le_left
      (B.drop (commonLeadLen B A)).reverse (A.drop (commonLeadLen B A)).reverse
    rw [List.length_reverse] at hsN
    exact diff_apply_core A B (commonLeadLen B A)
      (commonTrailLen (B.drop (commonLeadLen B A)) (A.drop (commonLeadLen B A)))
      (commonLeadLen_le_left B A) hsN (take_commonLeadLen B A)
      (drop_commonTrailLen (B.drop (commonLeadLen B A)) (A.drop (commonLeadLen B A)))

/-- C3. Patch round-trip: for all strings `A` and `B`, applying the patch
produced by `compute_difference(A, B)` to `B` yields exactly `A` (the stored
patch transforms the new content back into the old content), every patch
applying cleanly. -/
theorem patch_roundtrip (A B : List Nat) :
    patch_apply (compute_difference A B) B =
      (A, (compute_difference A B).map fun _ => true) :=
  patch_apply_compute_difference A B

/-! ## Lemmas: edit chains and reconstruction -/

/-- A chain's changelog has one entry per step. -/
theorem chainChangelog_length (steps : List ChainStep) :
    ∀ d0, (chainChangelog d0 steps).length = steps.length := by
  induction steps with
  | nil => intro d0; rfl
  | cons s rest ih => intro d0; simp [chainChangelog, ih s.newContent]

/-- The expected reconstruction has one revision per step. -/
theorem expectedRevisions_length (steps : List ChainStep) :
    ∀ base d0, (expectedRevisions base d0 steps).length = steps.length := by
  induction steps with
  | nil => intro base d0; rfl
  | cons s rest ih =>
      intro base d0
      simp [expectedRevisions, ih (base + 1) s.newContent]

/-- Undoing one chain entry's patch from the step's own content recovers the
content before the step. -/
theorem chainOp_undo (d0 : List Nat) (s : ChainStep) :
    (if (chainOp d0 s).change = [] then s.newContent
     else (patch_apply (chainOp d0 s).change s.newContent).1) = d0 := by
  by_cases h : d0 = s.newContent
  · by_cases hc : (chainOp d0 s).change = []
    · rw [if_pos hc, h]
    · rw [if_neg hc]
      rw [show (chainOp d0 s).change = compute_difference d0 s.newContent from rfl,
        congrArg Prod.fst (patch_apply_compute_difference d0 s.newContent)]
  · have hc : (chainOp d0 s).change ≠ [] := by
      show compute_difference d0 s.newContent ≠ []
      unfold compute_difference
      rw [if_neg h]
      exact List.cons_ne_nil _ _
    rw [if_neg hc]
    exact congrArg Prod.fst (patch_apply_compute_difference d0 s.newContent)

/-- Walking the reversed chain changelog from the final content emits exactly
the expected revisions, then continues at the pre-chain content. -/
theorem computeRevisionsAux_chain (steps : List ChainStep) :
    ∀ d0 base ops,
      computeRevisionsAux (chainFinal d0 steps) (steps.length + base)
        ((chainChangelog d0 steps).reverse ++ ops) =
      expectedRevisions base d0 steps ++ computeRevisionsAux d0 base ops := by
  induction steps with
  | nil =>
      intro d0 base ops
      simp [chainFinal, chainChangelog, expectedRevisions]
  | cons s rest ih =>
      intro d0 base ops
      simp only [chainChangelog, chainFinal, List.reverse_cons, List.length_cons,
        List.append_assoc, List.singleton_append]
      rw [show rest.length + 1 + base = rest.length + (base + 1) by omega]
      rw [ih s.newContent (base + 1) (chainOp d0 s :: ops)]
      simp only [computeRevisionsAux, chainOp_undo d0 s, Nat.add_sub_cancel]
      simp only [expectedRevisions, List.append_assoc, List.singleton_append]
      rfl

/-- Running an edit chain against an existing record always succeeds and
appends exactly the chain's changelog entries. -/
theorem runChain_ok (steps : List ChainStep) :
    ∀ store path m prev, readRecord store path = some m →
    ∃ store2 m2, runChain store path prev steps = .ok store2 ∧
      readRecord store2 path = some m2 ∧
      m2.changelog = m.changelog ++ chainChangelog prev steps := by
  induction steps with
  | nil =>
      intro store path m prev h
      exact ⟨store, m, rfl, h, by simp [chainChangelog]⟩
  | cons s rest ih =>
      intro store path m prev h
      simp only [runChain, update_metadata_with_operation, h]
      have hr : readRecord
          (writeRecord store path
            { m with
                lastUpdated := s.ts
                designChecksum := calculate_checksum s.newContent
                changelog := m.changelog ++
                  [{ operationCode := s.code
                     operationDetails := s.details
                     change := compute_difference prev s.newContent
                     timestamp := s.ts
                     tool := "BioDesign tool" }] }) path =
          some { m with
                lastUpdated := s.ts
                designChecksum := calculate_checksum s.newContent
                changelog := m.changelog ++
                  [{ operationCode := s.code
                     operationDetails := s.details
                     change := compute_difference prev s.newContent
                     timestamp := s.ts
                     tool := "BioDesign tool" }] } := by
        simp [readRecord, writeRecord]
      obtain ⟨store2, m2, h1, h2, h3⟩ := ih _ path _ s.newContent hr
      refine ⟨store2, m2, h1, h2, ?_⟩
      rw [h3]
      simp [chainChangelog, chainOp]

/-- C2. Reconstruction correctness: for a record built by `create_metadata`
followed by `n` sequential `update_metadata_with_operation` calls producing
contents `D0, D1, ..., Dn` (each stored change being
`compute_difference(previous, new)`), `compute_revisions(Dn, changelog)`
returns exactly `n` revisions, in order with revision numbers `n` down to
`1`, where the revision numbered `i` carries design content `Di` and the
fields of changelog entry `i`. -/
theorem reconstruction_correct (store : MetadataFiles) (newId now : String)
    (parent : Option String) (name author desc : String) (d0 : List Nat)
    (steps : List ChainStep) :
    ∃ storeN m,
      runChain (create_metadata store newId now parent name author desc d0).2
        ("library/metadata_" ++ name ++ ".json") d0 steps = .ok storeN ∧
      readRecord storeN ("library/metadata_" ++ name ++ ".json") = some m ∧
      m.changelog = chainChangelog d0 steps ∧
      compute_revisions (chainFinal d0 steps) m.changelog =
        expectedRevisions 0 d0 steps ∧
      (compute_revisions (chainFinal d0 steps) m.changelog).length = steps.length := by
  have hcreate : readRecord
      (create_metadata store newId now parent name author desc d0).2
      ("library/metadata_" ++ name ++ ".json") =
      some (create_metadata store newId now parent name author desc d0).1 := by
    simp [create_metadata, readRecord, writeRecord]
  obtain ⟨store2, m2, h1, h2, h3⟩ := runChain_ok steps _ _ _ d0 hcreate
  have hcl : m2.changelog = chainChangelog d0 steps := by
    rw [h3]
    simp [create_metadata]
  refine ⟨store2, m2, h1, h2, hcl, ?_, ?_⟩
  · rw [hcl]
    unfold compute_revisions
    rw [chainChangelog_length steps d0]
    have := computeRevisionsAux_chain steps d0 0 []
    rw [List.append_nil] at this
    rw [show steps.length + 0 = steps.length from rfl] at this
    rw [this]
    simp [computeRevisionsAux]
  · rw [hcl]
    unfold compute_revisions
    rw [chainChangelog_length steps d0]
    have := computeRevisionsAux_chain steps d0 0 []
    rw [List.append_nil] at this
    rw [show steps.length + 0 = steps.length from rfl] at this
    rw [this]
    simp [computeRevisionsAux]
    exact expectedRevisions_length steps 0 d0


/-! ## Store-level claims -/

/-- C1. Checksum invariant: `create_metadata` stores
`designChecksum = calculate_checksum(content)`, and every successful
`update_metadata_with_operation` writes back a record whose `designChecksum`
equals `calculate_checksum` of the new content; directly after either
mutation the stored record's checksum matches its current content. -/
theorem checksum_invariant (store : MetadataFiles) (newId now now2 : String)
    (parent : Option String) (name author desc : String) (design : List Nat)
    (path : String) (m : BioDesignMetadata) (newDesign : List Nat)
    (code : String) (details : List (String × String)) (change : List DmpPatch)
    (h : readRecord store path = some m) :
    ((create_metadata store newId now parent name author desc design).1.designChecksum =
        calculate_checksum design ∧
      readRecord (create_metadata store newId now parent name author desc design).2
          ("library/metadata_" ++ name ++ ".json") =
        some (create_metadata store newId now parent name author desc design).1) ∧
    ∃ m2 store2,
      update_metadata_with_operation store path newDesign code details change now2 =
        .ok (m2, store2) ∧
      m2.designChecksum = calculate_checksum newDesign ∧
      readRecord store2 path = some m2 := by
  constructor
  · exact ⟨rfl, by simp [create_metadata, readRecord, writeRecord]⟩
  · simp only [update_metadata_with_operation, h]
    exact ⟨_, _, rfl, rfl, by simp [readRecord, writeRecord]⟩

theorem checksum_invariant_witness :
    readRecord demoStore "p" = some demoMeta ∧
    (((create_metadata demoStore "u1" "t1" none "n" "a" "d" (pyStr "atgc")).1.designChecksum =
        calculate_checksum (pyStr "atgc") ∧
      readRecord (create_metadata demoStore "u1" "t1" none "n" "a" "d" (pyStr "atgc")).2
          ("library/metadata_" ++ "n" ++ ".json") =
        some (create_metadata demoStore "u1" "t1" none "n" "a" "d" (pyStr "atgc")).1) ∧
    ∃ m2 store2,
      update_metadata_with_operation demoStore "p" (pyStr "atgctga") "APPEND" [] [] "t2" =
        .ok (m2, store2) ∧
      m2.designChecksum = calculate_checksum (pyStr "atgctga") ∧
      readRecord store2 "p" = some m2) :=
  ⟨rfl, checksum_invariant demoStore "u1" "t1" "t2" none "n" "a" "d" (pyStr "atgc")
    "p" demoMeta (pyStr "atgctga") "APPEND" [] [] rfl⟩

/-- C8. Append frame property: a successful update leaves `id`,
`parentMetadataId`, `designName`, `author` and `description` unchanged,
appends exactly one new operation at the end of the changelog (preserving
the existing entries as a prefix), changes only `designChecksum` and
`lastUpdated` otherwise, and re-invoking it with identical arguments appends
a duplicate entry (it is not idempotent). -/
theorem append_frame (store : MetadataFiles) (path : String)
    (m : BioDesignMetadata) (design : List Nat) (code : String)
    (details : List (String × String)) (change : List DmpPatch) (now : String)
    (h : readRecord store path = some m) :
    ∃ m1 store1 m2 store2,
      update_metadata_with_operation store path design code details change now =
        .ok (m1, store1) ∧
      m1.id = m.id ∧ m1.parentMetadataId = m.parentMetadataId ∧
      m1.designName = m.designName ∧ m1.author = m.author ∧
      m1.description = m.description ∧
      m1.designChecksum = calculate_checksum design ∧ m1.lastUpdated = now ∧
      m1.changelog = m.changelog ++
        [{ operationCode := code, operationDetails := details, change := change,
           timestamp := now, tool := "BioDesign tool" }] ∧
      m1.changelog.length = m.changelog.length + 1 ∧
      update_metadata_with_operation store1 path design code details change now =
        .ok (m2, store2) ∧
      m2.changelog = m.changelog ++
        [{ operationCode := code, operationDetails := details, change := change,
           timestamp := now, tool := "BioDesign tool" },
         { operationCode := code, operationDetails := details, change := change,
           timestamp := now, tool := "BioDesign tool" }] := by
  have h1 : update_metadata_with_operation store path design code details change now =
      .ok ({ m with
              lastUpdated := now
              designChecksum := calculate_checksum design
              changelog := m.changelog ++
                [{ operationCode := code, operationDetails := details,
                   change := change, timestamp := now, tool := "BioDesign tool" }] },
           writeRecord store path
            { m with
              lastUpdated := now
              designChecksum := calculate_checksum design
              changelog := m.changelog ++
                [{ operationCode := code, operationDetails := details,
                   change := change, timestamp := now, tool := "BioDesign tool" }] }) := by
    simp only [update_metadata_with_operation, h]
  have hread1 : readRecord
      (writeRecord store path
        { m with
          lastUpdated := now
          designChecksum := calculate_checksum design
          changelog := m.changelog ++
            [{ operationCode := code, operationDetails := details,
               change := change, timestamp := now, tool := "BioDesign tool" }] }) path =
      some { m with
          lastUpdated := now
          designChecksum := calculate_checksum design
          changelog := m.changelog ++
            [{ operationCode := code, operationDetails := details,
               change := change, timestamp := now, tool := "BioDesign tool" }] } := by
    simp [readRecord, writeRecord]
  have h2 : update_metadata_with_operation
      (writeRecord store path
        { m with
          lastUpdated := now
          designChecksum := calculate_checksum design
          changelog := m.changelog ++
            [{ operationCode := code, operationDetails := details,
               change := change, timestamp := now, tool := "BioDesign tool" }] })
      path design code details change now =
      .ok ({ m with
              lastUpdated := now
              designChecksum := calculate_checksum design
              changelog := (m.changelog ++
                [{ operationCode := code, operationDetails := details,
                   change := change, timestamp := now, tool := "BioDesign tool" }]) ++
                [{ operationCode := code, operationDetails := details,
                   change := change, timestamp := now, tool := "BioDesign tool" }] },
           writeRecord
            (writeRecord store path
              { m with
                lastUpdated := now
                designChecksum := calculate_checksum design
                changelog := m.changelog ++
                  [{ operationCode := code, operationDetails := details,
                     change := change, timestamp := now, tool := "BioDesign tool" }] })
            path
            { m with
              lastUpdated := now
              designChecksum := calculate_checksum design
              changelog := (m.changelog ++
                [{ operationCode := code, operationDetails := details,
                   change := change, timestamp := now, tool := "BioDesign tool" }]) ++
                [{ operationCode := code, operationDetails := details,
                   change := change, timestamp := now, tool := "BioDesign tool" }] }) := by
    simp only [update_metadata_with_operation, hread1]
  exact ⟨_, _, _, _, h1, rfl, rfl, rfl, rfl, rfl, rfl, rfl, rfl, by simp, h2, by simp⟩

theorem append_frame_witness :
    readRecord demoStore "p" = some demoMeta ∧
    ∃ m1 store1 m2 store2,
      update_metadata_with_operation demoStore "p" (pyStr "gg") "APPEND" [] [] "t2" =
        .ok (m1, store1) ∧
      m1.id = demoMeta.id ∧ m1.parentMetadataId = demoMeta.parentMetadataId ∧
      m1.designName = demoMeta.designName ∧ m1.author = demoMeta.author ∧
      m1.description = demoMeta.description ∧
      m1.designChecksum = calculate_checksum (pyStr "gg") ∧ m1.lastUpdated = "t2" ∧
      m1.changelog = demoMeta.changelog ++
        [{ operationCode := "APPEND", operationDetails := [], change := [],
           timestamp := "t2", tool := "BioDesign tool" }] ∧
      m1.changelog.length = demoMeta.changelog.length + 1 ∧
      update_metadata_with_operation store1 "p" (pyStr "gg") "APPEND" [] [] "t2" =
        .ok (m2, store2) ∧
      m2.changelog = demoMeta.changelog ++
        [{ operationCode := "APPEND", operationDetails := [], change := [],
           timestamp := "t2", tool := "BioDesign tool" },
         { operationCode := "APPEND", operationDetails := [], change := [],
           timestamp := "t2", tool := "BioDesign tool" }] :=
  ⟨rfl, append_frame demoStore "p" demoMeta (pyStr "gg") "APPEND" [] [] "t2" rfl⟩

/-! ## Error-class claims -/

/-- C7 counterexample: an update against a missing record path fails with
`FileNotFoundError` (an `OSError`), which is not of Python's `ValueError`
class, refuting the claim that both storage failures surface as
ValidationError-class (`ValueError`) failures. -/
theorem storage_error_class_counterexample :
    update_metadata_with_operation [] "library/missing.json" [] "CODE" [] [] "t" =
      .error (.fileNotFoundError "library/missing.json") ∧
    (PyError.fileNotFoundError "library/missing.json").isValueError = false :=
  ⟨rfl, rfl⟩

/-- C7 (amended). Storage failures are raised before any mutation, but with
two different classes: a create attempted through the tool's
`CreateOperation` for a file name that already exists raises `ValueError`,
while `update_metadata_with_operation` invoked with a missing metadata
record path raises `FileNotFoundError` (an `OSError`), not a
`ValueError`. -/
theorem storage_failures_amended (files : List String) (fn seq : String)
    (src pid : Option String) (store : MetadataFiles) (path : String)
    (design : List Nat) (code : String) (details : List (String × String))
    (change : List DmpPatch) (now : String)
    (hfn : fn ≠ "") (hseq : seq ≠ "")
    (hdup : ("library/" ++ fn ++ ".gb") ∈ files)
    (hmissing : readRecord store path = none) :
    validate_and_set_args files (some fn) (some seq) src pid =
      .error (.valueError
        ("A file with the name " ++ fn ++ ".gb already exists")) ∧
    update_metadata_with_operation store path design code details change now =
      .error (.fileNotFoundError path) ∧
    (PyError.fileNotFoundError path).isValueError = false := by
  refine ⟨?_, ?_, rfl⟩
  · unfold validate_and_set_args
    simp only [Option.getD_some]
    rw [if_neg (by simp [hfn, hseq]), if_pos hdup]
  · simp only [update_metadata_with_operation, hmissing]

theorem storage_failures_amended_witness :
    (("x" : String) ≠ "" ∧ ("atg" : String) ≠ "" ∧
      ("library/" ++ "x" ++ ".gb") ∈ ["library/x.gb"] ∧
      readRecord [] "p" = none) ∧
    validate_and_set_args ["library/x.gb"] (some "x") (some "atg") none none =
      .error (.valueError ("A file with the name " ++ "x" ++ ".gb already exists")) ∧
    update_metadata_with_operation [] "p" [] "CODE" [] [] "t" =
      .error (.fileNotFoundError "p") ∧
    (PyError.fileNotFoundError "p").isValueError = false :=
  ⟨⟨by decide, by decide, by decide, rfl⟩,
   storage_failures_amended ["library/x.gb"] "x" "atg" none none [] "p" [] "CODE"
     [] [] "t" (by decide) (by decide) (by decide) rfl⟩

/-- C4. Mismatch rejection: `design_and_metadata_match` returns `true`
exactly when the checksum stored in the decrypted metadata equals the
checksum independently computed over the design content; on a mismatch it
returns the boolean `false` and `place_order` reports a negative JSON result
with a message (the pair is never accepted, and no exception is involved —
the outcome is a total boolean). -/
theorem mismatch_rejection (m : BioDesignMetadata) (design_str : List Nat) :
    (design_and_metadata_match m design_str = true ↔
      m.designChecksum = calculate_checksum design_str) ∧
    (m.designChecksum ≠ calculate_checksum design_str →
      design_and_metadata_match m design_str = false ∧
      place_order (design_and_metadata_match m design_str) =
        { error := true
          message := "Design file and metadata file do not match. Please upload matching files."
          status := 200 }) := by
  constructor
  · simp [design_and_metadata_match]
  · intro hne
    have hfalse : design_and_metadata_match m design_str = false := by
      simp [design_and_metadata_match, hne]
    rw [hfalse]
    exact ⟨rfl, rfl⟩

theorem mismatch_rejection_witness :
    demoMetaBad.designChecksum ≠ calculate_checksum (pyStr "atgc") ∧
    design_and_metadata_match demoMetaBad (pyStr "atgc") = false :=
  ⟨by decide, ((mismatch_rejection demoMetaBad (pyStr "atgc")).2 (by decide)).1⟩

/-! ## Reconstruction totality -/

/-- The reconstruction loop emits one revision per entry, whatever the
entries contain. -/
theorem computeRevisionsAux_length (ops : List BioDesignOperation) :
    ∀ d r, (computeRevisionsAux d r ops).length = ops.length := by
  induction ops with
  | nil => intro d r; rfl
  | cons op rest ih =>
      intro d r
      simp [computeRevisionsAux, ih]

/-- C10. Silent patch-application failure: for every content string and
every changelog, `compute_revisions` is total and returns exactly one
revision per changelog entry, even when a patch does not apply cleanly to
the current content; the per-patch success flags returned by `patch_apply`
are discarded in its definition and the `Revision` output carries no failure
information, so no failure is ever reported to the caller. -/
theorem compute_revisions_total_length (last_design : List Nat)
    (changelog : List BioDesignOperation) :
    (compute_revisions last_design changelog).length = changelog.length := by
  unfold compute_revisions
  rw [computeRevisionsAux_length, List.length_reverse]

/-! ## Lemmas: base64 -/

/-- Decoding inverts the alphabet table on 6-bit values. -/
theorem b64CharIndex_b64Char : ∀ n, n < 64 → b64CharIndex (b64Char n) = some n := by
  decide

/-- No alphabet character is the padding character. -/
theorem b64Char_ne_pad : ∀ n, n < 64 → b64Char n ≠ '=' := by
  decide

/-- Base64 decoding inverts base64 encoding on byte strings. -/
theorem b64_groups_roundtrip : ∀ data : List Nat, (∀ x ∈ data, x < 256) →
    b64decodeGroups (b64encodeGroups data) = .ok data := by
  intro data
  induction data using b64encodeGroups.induct with
  | case1 => intro _; rfl
  | case2 a =>
      intro hd
      have ha : a < 256 := hd a (by simp)
      simp only [b64encodeGroups, b64decodeGroups,
        b64CharIndex_b64Char (a / 4) (by omega),
        b64CharIndex_b64Char (a % 4 * 16) (by omega)]
      rw [if_pos (by simp)]
      have hv : a / 4 * 4 + a % 4 * 16 / 16 = a := by omega
      rw [hv]
  | case3 a b =>
      intro hd
      have ha : a < 256 := hd a (by simp)
      have hb : b < 256 := hd b (by simp)
      have hne3 := b64Char_ne_pad (b % 16 * 4) (by omega)
      simp only [b64encodeGroups, b64decodeGroups,
        b64CharIndex_b64Char (a / 4) (by omega),
        b64CharIndex_b64Char (a % 4 * 16 + b / 16) (by omega),
        b64CharIndex_b64Char (b % 16 * 4) (by omega)]
      rw [if_neg (by intro hcon; exact hne3 hcon.1), if_pos (by simp)]
      have hv1 : a / 4 * 4 + (a % 4 * 16 + b / 16) / 16 = a := by omega
      have hv2 : (a % 4 * 16 + b / 16) % 16 * 16 + b % 16 * 4 / 4 = b := by omega
      rw [hv1, hv2]
  | case4 a b c rest ih =>
      intro hd
      have ha : a < 256 := hd a (by simp)
      have hb : b < 256 := hd b (by simp)
      have hc : c < 256 := hd c (by simp)
      have hrest : ∀ x ∈ rest, x < 256 := fun x hx => hd x (by simp [hx])
      have hne3 := b64Char_ne_pad (b % 16 * 4 + c / 64) (by omega)
      have hne4 := b64Char_ne_pad (c % 64) (by omega)
      simp only [b64encodeGroups, b64decodeGroups,
        b64CharIndex_b64Char (a / 4) (by omega),
        b64CharIndex_b64Char (a % 4 * 16 + b / 16) (by omega),
        b64CharIndex_b64Char (b % 16 * 4 + c / 64) (by omega),
        b64CharIndex_b64Char (c % 64) (by omega)]
      rw [if_neg (by intro hcon; exact hne3 hcon.1),
        if_neg (by intro hcon; exact hne4 hcon.1), ih hrest]
      have hv1 : a / 4 * 4 + (a % 4 * 16 + b / 16) / 16 = a := by omega
      have hv2 : (a % 4 * 16 + b / 16) % 16 * 16 + (b % 16 * 4 + c / 64) / 4 = b := by
        omega
      have hv3 : (b % 16 * 4 + c / 64) % 4 * 64 + c % 64 = c := by omega
      simp [hv1, hv2, hv3]

/-- Base64 string round-trip. -/
theorem b64decode_b64encode (data : List Nat) (h : ∀ x ∈ data, x < 256) :
    b64decode (b64encode data) = .ok data :=
  b64_groups_roundtrip data h

/-! ## Lemmas: PKCS7 and CBC -/

/-- A nonempty replicate ends in its element. -/
theorem getLast?_replicate_succ (n a : Nat) :
    (List.replicate (n + 1) a).getLast? = some a := by
  induction n with
  | zero => rfl
  | succ k ih =>
      rw [List.replicate_succ, show a :: List.replicate (k + 1) a =
        [a] ++ List.replicate (k + 1) a from rfl,
        List.getLast?_append_of_ne_nil _ (by simp)]
      exact ih

/-- PKCS7 unpadding inverts PKCS7 padding. -/
theorem pkcs7_roundtrip (msg : List Nat) : pkcs7Unpad (pkcs7Pad msg) = .ok msg := by
  have hmod : msg.length % 16 < 16 := Nat.mod_lt _ (by omega)
  have hk1 : 1 ≤ 16 - msg.length % 16 := by omega
  have hk16 : 16 - msg.length % 16 ≤ 16 := by omega
  unfold pkcs7Pad pkcs7Unpad
  have hlast : (msg ++ List.replicate (16 - msg.length % 16) (16 - msg.length % 16)).getLast? =
      some (16 - msg.length % 16) := by
    rw [List.getLast?_append_of_ne_nil _ (by simp; omega)]
    rw [show 16 - msg.length % 16 = (16 - msg.length % 16 - 1) + 1 by omega]
    exact getLast?_replicate_succ _ _
  simp only [hlast]
  have hlen : (msg ++ List.replicate (16 - msg.length % 16) (16 - msg.length % 16)).length =
      msg.length + (16 - msg.length % 16) := by simp
  rw [if_pos ?cond]
  case cond =>
    refine ⟨hk1, hk16, by rw [hlen]; omega, ?_⟩
    rw [hlen, show msg.length + (16 - msg.length % 16) - (16 - msg.length % 16) =
      msg.length by omega, List.drop_left]
    simp [List.all_eq_true, List.mem_replicate]
  rw [hlen, show msg.length + (16 - msg.length % 16) - (16 - msg.length % 16) =
    msg.length by omega, List.take_left]

/-- The chunking worker does not depend on the fuel, if sufficient. -/
theorem chunksAux_fuel_irrel (m : Nat) :
    ∀ f1, ∀ f2, ∀ l : List Nat, l.length ≤ f1 → l.length ≤ f2 →
      chunksAux m f1 l = chunksAux m f2 l := by
  intro f1
  induction f1 with
  | zero =>
      intro f2 l h1 _
      have : l = [] := List.eq_nil_of_length_eq_zero (by omega)
      subst this
      cases f2 <;> rfl
  | succ f ih =>
      intro f2 l h1 h2
      cases l with
      | nil => cases f2 <;> rfl
      | cons x xs =>
          cases f2 with
          | zero => simp at h2
          | succ f2 =>
              simp only [chunksAux]
              congr 1
              apply ih
              · simp only [List.length_drop, List.length_cons] at *
                omega
              · simp only [List.length_drop, List.length_cons] at *
                omega

/-- Chunking a 16-byte block followed by a remainder peels off the block. -/
theorem chunksSucc_cons_block (b rest : List Nat) (hb : b.length = 16) :
    chunksSucc 15 (b ++ rest) = b :: chunksSucc 15 rest := by
  obtain ⟨x, xs, rfl⟩ : ∃ x xs, b = x :: xs := by
    cases b with
    | nil => simp at hb
    | cons x xs => exact ⟨x, xs, rfl⟩
  unfold chunksSucc
  rw [List.cons_append, show ((x :: (xs ++ rest)).length) = (xs ++ rest).length + 1 by simp]
  simp only [chunksAux]
  norm_num
  have hxs : xs.length = 15 := by
    simp only [List.length_cons] at hb
    omega
  have ht : List.take 15 (xs ++ rest) = xs := by
    rw [← hxs]
    exact List.take_left xs rest
  have hd : List.drop 15 (xs ++ rest) = rest := by
    rw [← hxs]
    exact List.drop_left xs rest
  refine ⟨ht, ?_⟩
  rw [hd]
  apply chunksAux_fuel_irrel
  · omega
  · omega

/-- Re-chunking the flattening of a list of 16-byte blocks recovers it. -/
theorem chunksSucc_flatten (bs : List (List Nat)) (h : ∀ b ∈ bs, b.length = 16) :
    chunksSucc 15 bs.flatten = bs := by
  induction bs with
  | nil => rfl
  | cons b rest ih =>
      rw [List.flatten_cons, chunksSucc_cons_block _ _ (h b (by simp))]
      rw [ih fun b' hb' => h b' (by simp [hb'])]

/-- Flattening the chunking of any byte string recovers it. -/
theorem flatten_chunksAux (m : Nat) :
    ∀ fuel, ∀ l : List Nat, l.length ≤ fuel → (chunksAux m fuel l).flatten = l := by
  intro fuel
  induction fuel with
  | zero =>
      intro l h
      have : l = [] := List.eq_nil_of_length_eq_zero (by omega)
      subst this
      rfl
  | succ f ih =>
      intro l h
      cases l with
      | nil => rfl
      | cons x xs =>
          simp only [chunksAux, List.flatten_cons]
          rw [ih _ (by simp only [List.length_drop, List.length_cons] at *; omega)]
          exact List.take_append_drop _ _

/-- Flattening the 16-byte chunking of any byte string recovers it. -/
theorem flatten_chunksSucc (l : List Nat) : (chunksSucc 15 l).flatten = l :=
  flatten_chunksAux 15 l.length l (Nat.le_refl _)

/-- Every chunk of a byte string whose length is a multiple of 16 has
exactly 16 bytes. -/
theorem chunksAux_len16 :
    ∀ fuel, ∀ l : List Nat, l.length ≤ fuel → l.length % 16 = 0 →
      ∀ b ∈ chunksAux 15 fuel l, b.length = 16 := by
  intro fuel
  induction fuel with
  | zero => intro l _ _ b hb; cases l <;> simp [chunksAux] at hb
  | succ f ih =>
      intro l hlen hmod b hb
      cases l with
      | nil => simp [chunksAux] at hb
      | cons x xs =>
          simp only [chunksAux, List.mem_cons] at hb
          have hge : (x :: xs).length ≥ 16 := by
            by_contra hlt
            simp only [List.length_cons] at hlt hmod ⊢
            omega
          rcases hb with hb | hb
          · subst hb
            rw [List.length_take]
            simp only [List.length_cons] at hge ⊢
            omega
          · refine ih _ ?_ ?_ b hb
            · simp only [List.length_drop, List.length_cons] at *
              omega
            · simp only [List.length_drop, List.length_cons] at *
              omega

/-- Every element of a chunk is an element of the chunked list. -/
theorem chunksAux_mem_subset :
    ∀ fuel, ∀ l : List Nat, ∀ b ∈ chunksAux 15 fuel l, ∀ x ∈ b, x ∈ l := by
  intro fuel
  induction fuel with
  | zero => intro l b hb; cases l <;> simp [chunksAux] at hb
  | succ f ih =>
      intro l b hb x hx
      cases l with
      | nil => simp [chunksAux] at hb
      | cons y ys =>
          simp only [chunksAux, List.mem_cons] at hb
          rcases hb with hb | hb
          · exact List.take_subset _ _ (hb ▸ hx)
          · exact List.drop_subset _ _ (ih _ b hb x hx)

/-- XOR of two byte strings has the length of the shorter one. -/
theorem xorBytes_length (a b : List Nat) :
    (xorBytes a b).length = min a.length b.length := by
  simp [xorBytes]

/-- XOR of byte strings stays below 256. -/
theorem xorBytes_lt (a : List Nat) :
    ∀ b : List Nat, (∀ y ∈ a, y < 256) → (∀ y ∈ b, y < 256) →
      ∀ x ∈ xorBytes a b, x < 256 := by
  induction a with
  | nil => intro b _ _ x hx; simp [xorBytes] at hx
  | cons y ys ih =>
      intro b ha hb x hx
      cases b with
      | nil => simp [xorBytes] at hx
      | cons z zs =>
          simp only [xorBytes, List.zipWith_cons_cons, List.mem_cons] at hx
          rcases hx with hx | hx
          · subst hx
            have h1 : y < 2 ^ 8 := by have := ha y (by simp); omega
            have h2 : z < 2 ^ 8 := by have := hb z (by simp); omega
            have h := Nat.xor_lt_two_pow h1 h2
            norm_num at h
            exact h
          · exact ih zs (fun u hu => ha u (by simp [hu]))
              (fun u hu => hb u (by simp [hu])) x hx

/-- XOR with the same mask twice is the identity on equal-length strings. -/
theorem xorBytes_cancel (a : List Nat) :
    ∀ b : List Nat, a.length = b.length → xorBytes a (xorBytes a b) = b := by
  induction a with
  | nil =>
      intro b hlen
      have : b = [] := List.eq_nil_of_length_eq_zero (by simp at hlen; omega)
      subst this
      rfl
  | cons y ys ih =>
      intro b hlen
      cases b with
      | nil => simp at hlen
      | cons z zs =>
          simp only [xorBytes, List.zipWith_cons_cons]
          rw [show Nat.xor y (Nat.xor y z) = z from Nat.xor_cancel_left y z]
          have := ih zs (by simp at hlen; omega)
          simp only [xorBytes] at this
          rw [this]

/-- CBC ciphertext blocks are 16 bytes of byte values, provided the block
cipher maps 16-byte blocks to 16-byte blocks. -/
theorem cbcEncBlocks_spec (E : List Nat → List Nat)
    (hE : ∀ b, b.length = 16 → (E b).length = 16)
    (hEb : ∀ b, b.length = 16 → (∀ x ∈ b, x < 256) → ∀ x ∈ E b, x < 256) :
    ∀ bs prev, prev.length = 16 → (∀ x ∈ prev, x < 256) →
      (∀ b ∈ bs, b.length = 16 ∧ ∀ x ∈ b, x < 256) →
      ∀ c ∈ cbcEncBlocks E prev bs, c.length = 16 ∧ ∀ x ∈ c, x < 256 := by
  intro bs
  induction bs with
  | nil => intro prev _ _ _ c hc; simp [cbcEncBlocks] at hc
  | cons b rest ih =>
      intro prev hl hp hbs c hc
      have hxl : (xorBytes prev b).length = 16 := by
        rw [xorBytes_length, hl, (hbs b (by simp)).1]
        simp
      have hxb : ∀ x ∈ xorBytes prev b, x < 256 :=
        xorBytes_lt prev b hp (hbs b (by simp)).2
      simp only [cbcEncBlocks, List.mem_cons] at hc
      rcases hc with hc | hc
      · subst hc
        exact ⟨hE _ hxl, hEb _ hxl hxb⟩
      · exact ih (E (xorBytes prev b)) (hE _ hxl) (hEb _ hxl hxb)
          (fun b' h' => hbs b' (by simp [h'])) c hc

/-- CBC decryption inverts CBC encryption block-wise when the block cipher
pair is mutually inverse on 16-byte blocks. -/
theorem cbcDec_cbcEnc (E D : List Nat → List Nat)
    (hE : ∀ b, b.length = 16 → (E b).length = 16)
    (hDE : ∀ b, b.length = 16 → D (E b) = b) :
    ∀ bs prev, prev.length = 16 → (∀ b ∈ bs, b.length = 16) →
      cbcDecBlocks D prev (cbcEncBlocks E prev bs) = bs := by
  intro bs
  induction bs with
  | nil => intro prev _ _; rfl
  | cons b rest ih =>
      intro prev hl hbs
      have hblen : b.length = 16 := hbs b (by simp)
      have hxl : (xorBytes prev b).length = 16 := by
        rw [xorBytes_length, hl, hblen]
        simp
      simp only [cbcEncBlocks, cbcDecBlocks]
      rw [hDE _ hxl, xorBytes_cancel prev b (by omega)]
      rw [ih (E (xorBytes prev b)) (hE _ hxl) fun b' h' => hbs b' (by simp [h'])]

/-- PKCS7-padded data is block-aligned. -/
theorem pkcs7Pad_mod16 (msg : List Nat) : (pkcs7Pad msg).length % 16 = 0 := by
  have : msg.length % 16 < 16 := Nat.mod_lt _ (by omega)
  unfold pkcs7Pad
  simp only [List.length_append, List.length_replicate]
  omega

/-- PKCS7 padding preserves byte bounds. -/
theorem pkcs7Pad_lt (msg : List Nat) (h : ∀ x ∈ msg, x < 256) :
    ∀ x ∈ pkcs7Pad msg, x < 256 := by
  intro x hx
  unfold pkcs7Pad at hx
  rcases List.mem_append.mp hx with hm | hm
  · exact h x hm
  · have := (List.mem_replicate.mp hm).2
    omega

/-- The 16-byte chunks of padded data all have exactly 16 bytes. -/
theorem padBlocks_len16 (msg : List Nat) :
    ∀ b ∈ chunksSucc 15 (pkcs7Pad msg), b.length = 16 :=
  chunksAux_len16 (pkcs7Pad msg).length (pkcs7Pad msg) (Nat.le_refl _)
    (pkcs7Pad_mod16 msg)

/-- The flattening of 16-byte blocks is block-aligned. -/
theorem flatten_len16_mod (bs : List (List Nat)) (h : ∀ b ∈ bs, b.length = 16) :
    bs.flatten.length % 16 = 0 := by
  induction bs with
  | nil => rfl
  | cons b rest ih =>
      simp only [List.flatten_cons, List.length_append, h b (by simp)]
      have := ih fun b' h' => h b' (by simp [h'])
      omega

/-- All bytes of the IV-prefixed CBC ciphertext of padded data are byte
values. -/
theorem encData_lt (E : List Nat → List Nat)
    (hE : ∀ b, b.length = 16 → (E b).length = 16)
    (hEb : ∀ b, b.length = 16 → (∀ x ∈ b, x < 256) → ∀ x ∈ E b, x < 256)
    (iv msg : List Nat) (hivlen : iv.length = 16) (hivlt : ∀ x ∈ iv, x < 256)
    (hmsg : ∀ x ∈ msg, x < 256) :
    ∀ x ∈ iv ++ (cbcEncBlocks E iv (chunksSucc 15 (pkcs7Pad msg))).flatten,
      x < 256 := by
  have hspec := cbcEncBlocks_spec E hE hEb (chunksSucc 15 (pkcs7Pad msg)) iv
    hivlen hivlt
    (fun b hb => ⟨padBlocks_len16 msg b hb,
      fun x hx => pkcs7Pad_lt msg hmsg x
        (chunksAux_mem_subset (pkcs7Pad msg).length (pkcs7Pad msg) b hb x hx)⟩)
  intro x hx
  rcases List.mem_append.mp hx with hm | hm
  · exact hivlt x hm
  · obtain ⟨b, hb, hxb⟩ := List.mem_flatten.mp hm
    exact (hspec b hb).2 x hxb

/-- A successful base64 decode of an aligned token reduces `decrypt_string`
to CBC decryption followed by unpadding. -/
theorem decrypt_string_ok (D : List Nat → List Nat) (key token : String)
    (data : List Nat) (hkey : key ≠ "") (hdec : b64decode token = .ok data)
    (halign : (data.drop 16).length % 16 = 0) :
    decrypt_string D key token =
      pkcs7Unpad ((cbcDecBlocks D (data.take 16)
        (chunksSucc 15 (data.drop 16))).flatten) := by
  unfold decrypt_string
  rw [if_neg hkey]
  simp only [hdec]
  rw [if_pos halign]

/-- C5. Crypto round-trip: for every plaintext byte string and every
configured (nonempty) key, decrypting the encryption recovers the plaintext
exactly: the token is the base64 encoding of the 16-byte IV followed by the
CBC ciphertext of the PKCS7-padded plaintext, and decryption splits the
first 16 decoded bytes as IV, CBC-decrypts the rest, and removes the
padding.  The AES block maps under the configured key enter as the mutually
inverse 16-byte block maps `E` and `D`. -/
theorem crypto_roundtrip (E D : List Nat → List Nat) (key : String)
    (iv msg : List Nat) (hkey : key ≠ "")
    (hivlen : iv.length = 16) (hivlt : ∀ x ∈ iv, x < 256)
    (hmsg : ∀ x ∈ msg, x < 256)
    (hE : ∀ b, b.length = 16 → (E b).length = 16)
    (hEb : ∀ b, b.length = 16 → (∀ x ∈ b, x < 256) → ∀ x ∈ E b, x < 256)
    (hDE : ∀ b, b.length = 16 → D (E b) = b) :
    ∃ token, encrypt_string E key iv msg = .ok token ∧
      decrypt_string D key token = .ok msg := by
  have hctlen16 : ∀ c ∈ cbcEncBlocks E iv (chunksSucc 15 (pkcs7Pad msg)),
      c.length = 16 := by
    intro c hc
    exact (cbcEncBlocks_spec E hE hEb (chunksSucc 15 (pkcs7Pad msg)) iv hivlen hivlt
      (fun b hb => ⟨padBlocks_len16 msg b hb,
        fun x hx => pkcs7Pad_lt msg hmsg x
          (chunksAux_mem_subset (pkcs7Pad msg).length (pkcs7Pad msg) b hb x hx)⟩)
      c hc).1
  have hdatalt := encData_lt E hE hEb iv msg hivlen hivlt hmsg
  have hdec := b64decode_b64encode _ hdatalt
  have htake : (iv ++ (cbcEncBlocks E iv (chunksSucc 15 (pkcs7Pad msg))).flatten).take 16 =
      iv := by
    rw [← hivlen]
    exact List.take_left iv _
  have hdrop : (iv ++ (cbcEncBlocks E iv (chunksSucc 15 (pkcs7Pad msg))).flatten).drop 16 =
      (cbcEncBlocks E iv (chunksSucc 15 (pkcs7Pad msg))).flatten := by
    rw [← hivlen]
    exact List.drop_left iv _
  have halign : ((iv ++ (cbcEncBlocks E iv (chunksSucc 15 (pkcs7Pad msg))).flatten).drop 16).length %
      16 = 0 := by
    rw [hdrop]
    exact flatten_len16_mod _ hctlen16
  refine ⟨_, by unfold encrypt_string; rw [if_neg hkey], ?_⟩
  rw [decrypt_string_ok D key _ _ hkey hdec halign, htake, hdrop,
    chunksSucc_flatten _ hctlen16,
    cbcDec_cbcEnc E D hE hDE _ iv hivlen (padBlocks_len16 msg),
    flatten_chunksSucc]
  exact pkcs7_roundtrip msg

theorem crypto_roundtrip_witness :
    ∃ token,
      encrypt_string id "k" (List.replicate 16 0) [104, 105] = .ok token ∧
      decrypt_string id "k" token = .ok [104, 105] :=
  crypto_roundtrip id id "k" (List.replicate 16 0) [104, 105] (by decide)
    (by decide) (by decide) (by decide)
    (fun _ h => h) (fun _ _ h => h) (fun _ _ => rfl)

/-- C6. Token non-repetition: two encryptions of the same plaintext with
distinct 16-byte IVs produce distinct tokens, because the token embeds the
IV as its first 16 decoded bytes. -/
theorem token_nonrepetition (E : List Nat → List Nat) (key : String)
    (iv1 iv2 msg : List Nat) (hkey : key ≠ "")
    (h1len : iv1.length = 16) (h2len : iv2.length = 16)
    (h1lt : ∀ x ∈ iv1, x < 256) (h2lt : ∀ x ∈ iv2, x < 256)
    (hmsg : ∀ x ∈ msg, x < 256)
    (hE : ∀ b, b.length = 16 → (E b).length = 16)
    (hEb : ∀ b, b.length = 16 → (∀ x ∈ b, x < 256) → ∀ x ∈ E b, x < 256)
    (hne : iv1 ≠ iv2) :
    encrypt_string E key iv1 msg ≠ encrypt_string E key iv2 msg := by
  intro heq
  unfold encrypt_string at heq
  rw [if_neg hkey, if_neg hkey] at heq
  have heqt : b64encode
      (iv1 ++ (cbcEncBlocks E iv1 (chunksSucc 15 (pkcs7Pad msg))).flatten) =
      b64encode
      (iv2 ++ (cbcEncBlocks E iv2 (chunksSucc 15 (pkcs7Pad msg))).flatten) := by
    simpa using heq
  have hd1 := b64decode_b64encode _ (encData_lt E hE hEb iv1 msg h1len h1lt hmsg)
  have hd2 := b64decode_b64encode _ (encData_lt E hE hEb iv2 msg h2len h2lt hmsg)
  rw [heqt, hd2] at hd1
  have hdata : iv2 ++ (cbcEncBlocks E iv2 (chunksSucc 15 (pkcs7Pad msg))).flatten =
      iv1 ++ (cbcEncBlocks E iv1 (chunksSucc 15 (pkcs7Pad msg))).flatten := by
    simpa using hd1
  have h := congrArg (List.take 16) hdata
  have e2 : (iv2 ++ (cbcEncBlocks E iv2 (chunksSucc 15 (pkcs7Pad msg))).flatten).take 16 =
      iv2 := by
    rw [← h2len]
    exact List.take_left iv2 _
  have e1 : (iv1 ++ (cbcEncBlocks E iv1 (chunksSucc 15 (pkcs7Pad msg))).flatten).take 16 =
      iv1 := by
    rw [← h1len]
    exact List.take_left iv1 _
  rw [e2, e1] at h
  exact hne h.symm

theorem token_nonrepetition_witness :
    encrypt_string id "k" (List.replicate 16 0) [104] ≠
      encrypt_string id "k" (1 :: List.replicate 15 0) [104] :=
  token_nonrepetition id "k" (List.replicate 16 0) (1 :: List.replicate 15 0) [104]
    (by decide) (by decide) (by decide) (by decide) (by decide) (by decide)
    (fun _ h => h) (fun _ _ h => h) (by decide)
